import Mathlib

/-!
Shallow embedding of the hybrid simulation core of the `plant` repository,
centred on `src/metacommunity.h` (`model::Metacommunity`).  The Metacommunity
level (size, births, deaths, add_seeds, the ODE pack/unpack loops,
r_add_seedlings, r_clear, step_deterministic, step_stochastic) is translated
directly from that header.  The collaborators that the header uses but whose
sources are not part of the repository snapshot (`Patch`, `util::sum`,
`util::check_length`, the `ode::Solver` and R's `rbinom`) are modelled from
the specification, each marked `Modelled from the spec:` in its doc comment.

Machine `double`s that only ever hold exact values (state values copied
around, probabilities `1/j`) are represented by `ℚ`, plus an explicit
`+inf` constructor for the result of `1.0/0.0`.  C++ `int` is `ℤ` and
`size_t` decrement wraps modulo `2^64`.
-/

namespace PlantModel

/-- An individual's continuous (ODE) state: per the spec at least height plus
derived quantities; the State Vector Protocol only sees a fixed-length block
of doubles. -/
structure Individual where
  vars : List ℚ
deriving DecidableEq, Repr

/-- `ode_size()` of one individual: the number of continuous state variables
it contributes. -/
def Individual.ode_size (x : Individual) : ℕ := x.vars.length

/-- Consume exactly `n` doubles from the cursor `c`, returning the block read
and the advanced cursor.  A cursor shorter than `n` corresponds to an
out-of-bounds iterator read in the C++ (undefined behaviour); it is modelled
by padding with `0`. -/
def readSlots (n : ℕ) (c : List ℚ) : List ℚ × List ℚ :=
  (c.take n ++ List.replicate (n - c.length) 0, c.drop n)

/-- `ode_values_set` for one individual: overwrite its state with the next
`ode_size()` values of the cursor and advance the cursor. -/
def Individual.ode_values_set (x : Individual) (c : List ℚ) : Individual × List ℚ :=
  ((⟨(readSlots x.vars.length c).1⟩ : Individual), (readSlots x.vars.length c).2)

/-- `ode_values` for one individual: copy its state out. -/
def Individual.ode_values (x : Individual) : List ℚ := x.vars

/-- A cohort list: the ordered individuals of one species in one patch
(insertion order = cohort age order). -/
abbrev Cohort := List Individual

/-- Total ODE size of a cohort. -/
def cohortSize (c : Cohort) : ℕ := (c.map Individual.ode_size).sum

/-- Flat state of a cohort, individuals in insertion order. -/
def cohortValues : Cohort → List ℚ
  | [] => []
  | i :: rest => i.ode_values ++ cohortValues rest

/-- Unpack a cursor into a cohort, individuals in insertion order. -/
def cohortValuesSet : Cohort → List ℚ → Cohort × List ℚ
  | [], c => ([], c)
  | i :: rest, c =>
    let r := i.ode_values_set c
    let r2 := cohortValuesSet rest r.2
    (r.1 :: r2.1, r2.2)

/-- Modelled from the spec: a `Patch` holds its age since last disturbance
and one ordered cohort list per species (`patch.h` is not part of the
sources). -/
structure Patch where
  age : ℚ
  species : List Cohort
deriving DecidableEq, Repr

/-- Modelled from the spec: `Patch::ode_size` sums the sizes of the contained
individuals, species in index order. -/
def Patch.ode_size (p : Patch) : ℕ := (p.species.map cohortSize).sum

/-- Flat state of a list of cohorts, species in index order. -/
def speciesValues : List Cohort → List ℚ
  | [] => []
  | c :: rest => cohortValues c ++ speciesValues rest

/-- Unpack a cursor into a list of cohorts, species in index order. -/
def speciesValuesSet : List Cohort → List ℚ → List Cohort × List ℚ
  | [], cur => ([], cur)
  | c :: rest, cur =>
    let r := cohortValuesSet c cur
    let r2 := speciesValuesSet rest r.2
    (r.1 :: r2.1, r2.2)

/-- Modelled from the spec: `Patch::ode_values` copies state out in
species-index then cohort-insertion order. -/
def Patch.ode_values (p : Patch) : List ℚ := speciesValues p.species

/-- Modelled from the spec: `Patch::ode_values_set` consumes exactly
`ode_size()` values in the same traversal order. -/
def Patch.ode_values_set (p : Patch) (cur : List ℚ) : Patch × List ℚ :=
  let r := speciesValuesSet p.species cur
  (({ p with species := r.1 } : Patch), r.2)

/-- Per-species live individual counts of a patch. -/
def Patch.r_n_individuals (p : Patch) : List ℕ := p.species.map List.length

/-- A new seedling individual.  Modelled from the spec: seedlings start at a
species-specific germination height; the height value itself comes from the
external Strategy collaborator and is irrelevant to the counted claims, so a
fixed placeholder state is used. -/
def seedlingInd : Individual := ⟨[0]⟩

/-- Append `k` seedlings to each species cohort, species-wise along `counts`
(surplus count entries beyond the species list, or species beyond the counts
vector, are untouched). -/
def appendSeedlings : List Cohort → List ℤ → List Cohort
  | cs, [] => cs
  | [], _ => []
  | c :: cs, k :: ks => (c ++ List.replicate k.toNat seedlingInd) :: appendSeedlings cs ks

/-- Modelled from the spec: `Patch::add_seeds` converts the given per-species
seed counts into new seedling individuals appended to the corresponding
species cohort. -/
def Patch.add_seeds (p : Patch) (counts : List ℤ) : Patch :=
  { p with species := appendSeedlings p.species counts }

/-- Modelled from the spec: `Patch::add_seedlings` is the host-facing direct
seedling injection, appending the given counts exactly like seed addition. -/
def Patch.add_seedlings (p : Patch) (counts : List ℤ) : Patch :=
  { p with species := appendSeedlings p.species counts }

/-- Modelled from the spec: `Patch::r_clear` resets the patch to the empty
state and age 0 (the species slots remain). -/
def Patch.r_clear (p : Patch) : Patch :=
  ⟨0, p.species.map (fun _ => [])⟩

/-- Modelled from the spec: the process-wide R random generator stream,
represented as an infinite integer stream with a read position; every draw
advances the position, so repeated runs from the same generator state are
bit-identical. -/
structure Gen where
  stream : ℕ → ℤ
  pos : ℕ

/-- Advance the generator by one draw. -/
def Gen.next (g : Gen) : Gen := ⟨g.stream, g.pos + 1⟩

/-- A C++ `double` as used for the binomial probability: either an exact
finite value or `+inf`, the result of `1.0/0.0`. -/
inductive RDouble where
  | val (q : ℚ)
  | posInf
deriving DecidableEq, Repr

/-- The probability `1.0/(double)j` computed from the `size_t` counter `j`:
`+inf` when `j = 0`, otherwise the exact value `1/j` (built with `mkRat`). -/
def invSize (j : ℕ) : RDouble := if j = 0 then .posInf else .val (mkRat 1 j)

/-- `size_t` decrement: wraps to `2^64 - 1` at zero. -/
def sub64 (j : ℕ) : ℕ := if j = 0 then 2 ^ 64 - 1 else j - 1

/-- Modelled from the spec: `(int)R::rbinom(n, p)`.  A Binomial(n, p) draw
returns `n` with probability 1 when `p = 1`, `0` when `p = 0` or `n = 0`, and
otherwise some stream-determined value in `[0, n]`.  When the arguments are
not a valid binomial (negative `n`, `p` outside `[0, 1]`, or `p = +inf`), R's
`rbinom` returns `NaN` and the C cast to `int` is unspecified; that case is
modelled as a raw stream-determined value. -/
def rbinom (g : Gen) (n : ℤ) (p : RDouble) : ℤ × Gen :=
  match p with
  | .posInf => (g.stream g.pos, g.next)
  | .val q =>
    if 0 ≤ n ∧ 0 ≤ q ∧ q ≤ 1 then
      if q = 1 then (n, g.next)
      else if q = 0 then (0, g.next)
      else if n = 0 then (0, g.next)
      else (max 0 (min n (g.stream g.pos)), g.next)
    else (g.stream g.pos, g.next)

/-- Modelled from the spec: the adaptive ODE solver's per-run mutable state,
reduced to its step-size adaptation history (`reset()` clears it). -/
structure Solver where
  history : Option ℚ
deriving DecidableEq, Repr

/-- Modelled from the spec: `Solver::reset` clears the internal step-size
adaptation history. -/
def Solver.reset (_ : Solver) : Solver := ⟨none⟩

/-- The configuration shared by all patches (only the fields the
metacommunity core reads: `n_patches` and the species count
`parameters->size()`). -/
structure Parameters where
  n_patches : ℕ
  n_species : ℕ
deriving DecidableEq, Repr

/-- `model::Metacommunity`: the shared parameters, the owned patches, the
global age and the owned ODE solver state. -/
structure Metacommunity where
  params : Parameters
  patches : List Patch
  age : ℚ
  solver : Solver
deriving DecidableEq, Repr

/-- `Metacommunity::size()`: the number of patches. -/
def Metacommunity.size (m : Metacommunity) : ℕ := m.patches.length

/-- `Metacommunity::n_species()`: `parameters->size()`. -/
def Metacommunity.n_species (m : Metacommunity) : ℕ := m.params.n_species

/-- A freshly constructed empty patch with one empty cohort per species. -/
def Patch.empty (nSpecies : ℕ) : Patch := ⟨0, List.replicate nSpecies []⟩

/-- The constructor plus `initialise()`: `n_patches` fresh patches, age 0,
a fresh solver. -/
def Metacommunity.init (p : Parameters) : Metacommunity :=
  ⟨p, List.replicate p.n_patches (Patch.empty p.n_species), 0, ⟨none⟩⟩

/-- `Metacommunity::ode_size`: the accumulation loop
`ret += patch->ode_size()` over the patches. -/
def Metacommunity.ode_size (m : Metacommunity) : ℕ :=
  m.patches.foldl (fun acc p => acc + p.ode_size) 0

/-- Flat state of a list of patches, in index order. -/
def patchesValues : List Patch → List ℚ
  | [] => []
  | p :: rest => p.ode_values ++ patchesValues rest

/-- Unpack a cursor into a list of patches, in index order. -/
def patchesValuesSet : List Patch → List ℚ → List Patch × List ℚ
  | [], cur => ([], cur)
  | p :: rest, cur =>
    let r := p.ode_values_set cur
    let r2 := patchesValuesSet rest r.2
    (r.1 :: r2.1, r2.2)

/-- `Metacommunity::ode_values`: concatenation of the patches' state in index
order. -/
def Metacommunity.ode_values (m : Metacommunity) : List ℚ :=
  patchesValues m.patches

/-- `Metacommunity::ode_values_set`: delegate to each patch in index order,
threading the cursor. -/
def Metacommunity.ode_values_set (m : Metacommunity) (cur : List ℚ) :
    Metacommunity × List ℚ :=
  let r := patchesValuesSet m.patches cur
  (({ m with patches := r.1 } : Metacommunity), r.2)

/-- The per-patch per-species live-count matrix (`r_n_individuals`, one inner
list per patch, one entry per species). -/
def Metacommunity.r_n_individuals (m : Metacommunity) : List (List ℕ) :=
  m.patches.map Patch.r_n_individuals

/-- Modelled from the spec: per-species seed production of one patch — for
every surviving individual a species-specific fecundity count of its state,
summed per species (`patch.h` is not part of the sources).  The fecundity
function comes from the external Strategy collaborator, so it is a
parameter; it returns a count, hence never a negative number. -/
def Patch.births (fec : Individual → ℕ) (p : Patch) : List ℤ :=
  p.species.map (fun c => ((c.map fec).sum : ℤ))

/-- Modelled from the spec: `util::sum` (in `util.h`, not part of the
sources) adds two integer vectors elementwise; the result is truncated to
the shorter input (a mismatch makes the C++ read out of bounds; no theorem
below exercises that path). -/
def util_sum (a b : List ℤ) : List ℤ := List.zipWith (· + ·) a b

/-- `Metacommunity::births`: accumulator `n` initialised as
`std::vector<int> n(size(), 0)` — note `size()` is the number of patches —
then `n = util::sum(n, patch->births())` over the patches. -/
def Metacommunity.births (fec : Individual → ℕ) (m : Metacommunity) : List ℤ :=
  m.patches.foldl (fun n p => util_sum n (p.births fec))
    (List.replicate m.size 0)

/-- Modelled from the spec: one cohort's stochastic death roll — each
individual consumes one draw from the generator stream and is removed when
the externally-supplied mortality rule (a function of its state and the
draw) says so; survivors keep their relative order (stable compaction). -/
def cohortDeaths (mort : Individual → ℤ → Bool) : Cohort → Gen → Cohort × Gen
  | [], g => ([], g)
  | i :: rest, g =>
    let u := g.stream g.pos
    let r := cohortDeaths mort rest g.next
    (if mort i u then r.1 else i :: r.1, r.2)

/-- Death rolls across the cohorts of one patch, species in index order. -/
def speciesDeaths (mort : Individual → ℤ → Bool) :
    List Cohort → Gen → List Cohort × Gen
  | [], g => ([], g)
  | c :: rest, g =>
    let r := cohortDeaths mort c g
    let r2 := speciesDeaths mort rest r.2
    (r.1 :: r2.1, r2.2)

/-- Modelled from the spec: `Patch::deaths` removes the individuals that die
this cycle (the disturbance hazard is owned by an external collaborator and
is not part of this model). -/
def Patch.deaths (mort : Individual → ℤ → Bool) (p : Patch) (g : Gen) :
    Patch × Gen :=
  let r := speciesDeaths mort p.species g
  (({ p with species := r.1 } : Patch), r.2)

/-- The patch loop of `Metacommunity::deaths`, threading the generator. -/
def patchesDeaths (mort : Individual → ℤ → Bool) :
    List Patch → Gen → List Patch × Gen
  | [], g => ([], g)
  | p :: rest, g =>
    let r := p.deaths mort g
    let r2 := patchesDeaths mort rest r.2
    (r.1 :: r2.1, r2.2)

/-- `Metacommunity::deaths`: every patch's deaths, in patch index order. -/
def Metacommunity.deaths (mort : Individual → ℤ → Bool) (m : Metacommunity)
    (g : Gen) : Metacommunity × Gen :=
  let r := patchesDeaths mort m.patches g
  (({ m with patches := r.1 } : Metacommunity), r.2)

/-- The inner species loop of `Metacommunity::add_seeds`:
`for (size_t i = 0; i < size(); i++, j--)` — the loop bound `nP` is
`size()` (the number of patches), the probability `p` is fixed for the whole
loop, and the `size_t` counter `j` is decremented once per iteration of this
inner loop.  The loop is written by structural recursion on the number of
remaining iterations (`nP - i`, the first argument), with `i` the current
index.  Out-of-range accesses `seeds[i]` (undefined behaviour in the C++
when the seed vector is shorter than `size()`) are modelled as reading 0 and
writing nowhere; no theorem below exercises that path. -/
def addSeedsSpeciesLoop (p : RDouble) :
    ℕ → ℕ → List ℤ → List ℤ → ℕ → Gen → List ℤ × List ℤ × ℕ × Gen
  | 0, _, seeds, seedsI, j, g => (seeds, seedsI, j, g)
  | rem + 1, i, seeds, seedsI, j, g =>
    let n := seeds.getD i 0
    let r := rbinom g n p
    addSeedsSpeciesLoop p rem (i + 1) (seeds.set i (n - r.1))
      (seedsI.set i r.1) (sub64 j) r.2

/-- The patch loop of `Metacommunity::add_seeds`: for each patch compute
`p = 1.0/(double)j`, run the inner species loop starting from
`std::vector<int> seeds_i(size())` (zero-filled, length = number of
patches), hand the drawn allocation to the patch, and continue with the
updated remaining-seeds vector, counter and generator.  Besides the updated
patches it returns the list of per-patch allocation vectors that were passed
to `patch->add_seeds`. -/
def addSeedsGo (nP : ℕ) : List Patch → List ℤ → ℕ → Gen →
    List Patch × List (List ℤ) × ℕ × Gen
  | [], _, j, g => ([], [], j, g)
  | pa :: rest, seeds, j, g =>
    let p := invSize j
    let r := addSeedsSpeciesLoop p nP 0 seeds (List.replicate nP 0) j g
    let r2 := addSeedsGo nP rest r.1 r.2.2.1 r.2.2.2
    (pa.add_seeds r.2.1 :: r2.1, r.2.1 :: r2.2.1, r2.2.2.1, r2.2.2.2)

/-- `Metacommunity::add_seeds`: `j` starts at `size()`, then the patch loop;
returns the updated metacommunity, the per-patch allocation vectors and the
final generator. -/
def Metacommunity.add_seeds (m : Metacommunity) (seeds : List ℤ) (g : Gen) :
    Metacommunity × List (List ℤ) × Gen :=
  let r := addSeedsGo m.size m.patches seeds m.size g
  (({ m with patches := r.1 } : Metacommunity), r.2.1, r.2.2.2)

/-- The inner species loop of the scheme as the spec words it: one
`Binomial(remaining_seeds[i], p)` draw per species of the seed vector
(bound = number of species), with `j` untouched inside the loop; written by
structural recursion on the remaining iteration count with `i` the current
index. -/
def specSchemeSpeciesLoop (p : RDouble) :
    ℕ → ℕ → List ℤ → List ℤ → Gen → List ℤ × List ℤ × Gen
  | 0, _, seeds, seedsI, g => (seeds, seedsI, g)
  | rem + 1, i, seeds, seedsI, g =>
    let n := seeds.getD i 0
    let r := rbinom g n p
    specSchemeSpeciesLoop p rem (i + 1) (seeds.set i (n - r.1))
      (seedsI.set i r.1) r.2

/-- Modelled from the spec: the seed-redistribution scheme in the spec's own
words — patches in a fixed order; for the k-th remaining patch out of `j`
patches not yet processed, draw `Binomial(remaining_seeds, 1/j)` for each
species, subtract from the remaining pool, decrement `j` once per patch. -/
def specSchemeGo : List Patch → List ℤ → ℕ → Gen →
    List Patch × List (List ℤ) × Gen
  | [], _, _, g => ([], [], g)
  | pa :: rest, seeds, j, g =>
    let p := invSize j
    let r := specSchemeSpeciesLoop p seeds.length 0 seeds
      (List.replicate seeds.length 0) g
    let r2 := specSchemeGo rest r.1 (j - 1) r.2.2
    (pa.add_seeds r.2.1 :: r2.1, r.2.1 :: r2.2.1, r2.2.2)

/-- Modelled from the spec: seed redistribution following the spec's
sequential binomial-without-replacement description, for comparison with
`Metacommunity.add_seeds`. -/
def Metacommunity.add_seeds_specScheme (m : Metacommunity) (seeds : List ℤ)
    (g : Gen) : Metacommunity × List (List ℤ) × Gen :=
  let r := specSchemeGo m.patches seeds m.size g
  (({ m with patches := r.1 } : Metacommunity), r.2.1, r.2.2)

/-- `Metacommunity::step_stochastic`: `deaths(); add_seeds(births());` —
all deaths complete first, then births are computed on the survivors, then
the combined seed pool is redistributed. -/
def Metacommunity.step_stochastic (fec : Individual → ℕ)
    (mort : Individual → ℤ → Bool) (m : Metacommunity) (g : Gen) :
    Metacommunity × Gen :=
  let r := m.deaths mort g
  let r2 := r.1.add_seeds (r.1.births fec) r.2
  (r2.1, r2.2.2)

/-- `Metacommunity::r_step_stochastic`: the host entry point brackets the
generator state (`Rcpp::RNGScope`) around `step_stochastic`; with the
generator explicit this is the same function of state and generator. -/
def Metacommunity.r_step_stochastic (fec : Individual → ℕ)
    (mort : Individual → ℤ → Bool) (m : Metacommunity) (g : Gen) :
    Metacommunity × Gen :=
  m.step_stochastic fec mort g

/-- Modelled from the spec: one adaptive solver step as seen from
`step_deterministic` — from the solver state, the packed state vector and
the current time it produces the new solver state, the accepted state vector
and the advanced time; by the State Vector Protocol it consumes and produces
exactly `ode_size()` doubles, so the output vector has the input's length. -/
structure SolverStep where
  next : Solver → List ℚ → ℚ → Solver × List ℚ × ℚ
  next_length : ∀ s y t, (next s y t).2.1.length = y.length

/-- `Metacommunity::step_deterministic`: pack the state via `ode_values`,
hand it to the solver (`set_state` + `step`), unpack the accepted state back
into the patches (the solver drives `ode_values_set` through `derivs`), and
set `age` to the solver's reported time. -/
def Metacommunity.step_deterministic (σ : SolverStep) (m : Metacommunity) :
    Metacommunity :=
  let r := σ.next m.solver m.ode_values m.age
  let m1 := (({ m with solver := r.1 } : Metacommunity).ode_values_set r.2.1).1
  { m1 with age := r.2.2 }

/-- `Metacommunity::derivs`: unpack the candidate state into the patches via
`ode_values_set`; the rates are produced by the external growth model,
represented by the returned unpacked state. -/
def Metacommunity.derivs (m : Metacommunity) (y : List ℚ) : Metacommunity :=
  (m.ode_values_set y).1

/-- `Metacommunity::step`: exactly one deterministic step followed by one
stochastic step. -/
def Metacommunity.step (σ : SolverStep) (fec : Individual → ℕ)
    (mort : Individual → ℤ → Bool) (m : Metacommunity) (g : Gen) :
    Metacommunity × Gen :=
  (m.step_deterministic σ).step_stochastic fec mort g

/-- `Metacommunity::r_clear`: age to 0, every patch cleared, and
`ode_solver.reset()`. -/
def Metacommunity.r_clear (m : Metacommunity) : Metacommunity :=
  { m with age := 0, patches := m.patches.map Patch.r_clear,
           solver := m.solver.reset }

/-- An R integer matrix as passed to `r_add_seedlings`: its declared row and
column counts and its columns (each column is a patch, each row a species). -/
structure IntMatrix where
  nrow : ℕ
  ncol : ℕ
  cols : List (List ℤ)
deriving DecidableEq, Repr

/-- `Metacommunity::r_add_seedlings`: first `util::check_length(ncol,
size())`, then `util::check_length(nrow, n_species())` — modelled from the
spec, `check_length` (in `util.h`, not part of the sources) raises an error
when the lengths differ, before any state is touched — and only then each
column is injected into its patch. -/
def Metacommunity.r_add_seedlings (m : Metacommunity) (seeds : IntMatrix) :
    Except String Metacommunity :=
  if seeds.ncol ≠ m.size then .error "incorrect length input"
  else if seeds.nrow ≠ m.n_species then .error "incorrect length input"
  else .ok { m with patches := List.zipWith Patch.add_seedlings m.patches seeds.cols }

/-- The metacommunity an `Except`-returning call produced, or the unchanged
receiver when the call errored. -/
def exceptD (r : Except String Metacommunity) (d : Metacommunity) :
    Metacommunity :=
  match r with
  | .ok x => x
  | .error _ => d

/-- Per-species totals of a list of per-patch allocation vectors: entry `i`
sums the `i`-th entry of every patch's allocation (missing entries count
as 0). -/
def allocTotals (nS : ℕ) (allocs : List (List ℤ)) : List ℤ :=
  (List.range nS).map (fun i => (allocs.map (fun a => a.getD i 0)).sum)

/-- A concrete generator stream: every draw reads 1. -/
def genOnes : Gen := ⟨fun _ => 1, 0⟩

/-- A concrete empty two-species patch. -/
def patchTwoEmpty : Patch := ⟨0, [[], []]⟩

/-- A concrete metacommunity with one patch and two species (both cohorts
empty). -/
def onePatchTwoSpecies : Metacommunity := ⟨⟨1, 2⟩, [patchTwoEmpty], 0, ⟨none⟩⟩

/-- A concrete metacommunity with two patches and two species (all cohorts
empty). -/
def twoPatchTwoSpecies : Metacommunity :=
  ⟨⟨2, 2⟩, [patchTwoEmpty, patchTwoEmpty], 0, ⟨none⟩⟩

/-- A concrete one-patch two-species metacommunity holding one individual of
each species. -/
def birthsDemoM : Metacommunity :=
  ⟨⟨1, 2⟩, [⟨0, [[⟨[1]⟩], [⟨[2]⟩]]⟩], 0, ⟨none⟩⟩

/-- A concrete one-patch one-species metacommunity holding one individual,
whose solver carries a stale step-size history entry. -/
def staleSolverM : Metacommunity :=
  ⟨⟨1, 1⟩, [⟨0, [[⟨[5]⟩]]⟩], 0, ⟨some 1⟩⟩

/-- A concrete fecundity rule: every individual produces one seed. -/
def fecUnit : Individual → ℕ := fun _ => 1

/-- A concrete fecundity rule: no individual produces seeds. -/
def fecZero : Individual → ℕ := fun _ => 0

/-- A concrete mortality rule: every individual dies this cycle. -/
def mortAlways : Individual → ℤ → Bool := fun _ _ => true

/-- A concrete solver step (the identity stepper): `SolverStep` is
inhabited. -/
def idSolverStep : SolverStep := ⟨fun s y t => (s, y, t), fun _ _ _ => rfl⟩

/-- Reading a block of exactly the length of `l` from the cursor `l ++ r`
yields `l` and leaves `r`. -/
theorem readSlots_append (l r : List ℚ) : readSlots l.length (l ++ r) = (l, r) := by
  have h : l.length - (l ++ r).length = 0 := by
    rw [List.length_append]; omega
  simp [readSlots, List.take_left, List.drop_left, h]

/-- Unpacking an individual's own packed state restores the individual. -/
theorem ode_values_set_self (x : Individual) (rest : List ℚ) :
    x.ode_values_set (x.ode_values ++ rest) = (x, rest) := by
  simp [Individual.ode_values_set, Individual.ode_values, readSlots_append]

/-- Unpacking a cohort's own packed state restores the cohort. -/
theorem cohortValuesSet_self (c : Cohort) (rest : List ℚ) :
    cohortValuesSet c (cohortValues c ++ rest) = (c, rest) := by
  induction c generalizing rest with
  | nil => simp [cohortValuesSet, cohortValues]
  | cons i t ih =>
    simp [cohortValuesSet, cohortValues, List.append_assoc, ode_values_set_self, ih]

/-- Unpacking a species list's own packed state restores it. -/
theorem speciesValuesSet_self (s : List Cohort) (rest : List ℚ) :
    speciesValuesSet s (speciesValues s ++ rest) = (s, rest) := by
  induction s generalizing rest with
  | nil => simp [speciesValuesSet, speciesValues]
  | cons c t ih =>
    simp [speciesValuesSet, speciesValues, List.append_assoc, cohortValuesSet_self, ih]

/-- Unpacking a patch's own packed state restores the patch. -/
theorem patch_values_set_self (p : Patch) (rest : List ℚ) :
    p.ode_values_set (p.ode_values ++ rest) = (p, rest) := by
  simp [Patch.ode_values_set, Patch.ode_values, speciesValuesSet_self]

/-- Unpacking a patch list's own packed state restores it. -/
theorem patchesValuesSet_self (ps : List Patch) (rest : List ℚ) :
    patchesValuesSet ps (patchesValues ps ++ rest) = (ps, rest) := by
  induction ps generalizing rest with
  | nil => simp [patchesValuesSet, patchesValues]
  | cons p t ih =>
    simp [patchesValuesSet, patchesValues, List.append_assoc, patch_values_set_self, ih]

/-- Unpacking the metacommunity's own packed state restores it. -/
theorem meta_values_set_self (m : Metacommunity) (rest : List ℚ) :
    m.ode_values_set (m.ode_values ++ rest) = (m, rest) := by
  simp [Metacommunity.ode_values_set, Metacommunity.ode_values, patchesValuesSet_self]

/-- The block read by `readSlots` always has exactly the requested length. -/
theorem readSlots_length (n : ℕ) (c : List ℚ) : (readSlots n c).1.length = n := by
  simp [readSlots]
  omega

/-- `ode_values_set` keeps an individual's `ode_size`, whatever the cursor. -/
theorem ode_values_set_size (x : Individual) (c : List ℚ) :
    (x.ode_values_set c).1.ode_size = x.ode_size := by
  simp [Individual.ode_values_set, Individual.ode_size, readSlots_length]

/-- `cohortValuesSet` keeps each individual's size (hence the cohort's
length and total size), whatever the cursor. -/
theorem cohortValuesSet_shape (c : Cohort) (cur : List ℚ) :
    (cohortValuesSet c cur).1.map Individual.ode_size
      = c.map Individual.ode_size := by
  induction c generalizing cur with
  | nil => simp [cohortValuesSet]
  | cons i t ih => simp [cohortValuesSet, ode_values_set_size, ih]

/-- `speciesValuesSet` keeps the per-cohort size profile, whatever the
cursor. -/
theorem speciesValuesSet_shape (s : List Cohort) (cur : List ℚ) :
    (speciesValuesSet s cur).1.map (fun c => c.map Individual.ode_size)
      = s.map (fun c => c.map Individual.ode_size) := by
  induction s generalizing cur with
  | nil => simp [speciesValuesSet]
  | cons c t ih => simp [speciesValuesSet, cohortValuesSet_shape, ih]

/-- Cohort lists with the same size profile have the same per-species
counts. -/
theorem map_length_of_map_shape {s t : List Cohort}
    (h : s.map (fun c => c.map Individual.ode_size)
       = t.map (fun c => c.map Individual.ode_size)) :
    s.map List.length = t.map List.length := by
  have key : ∀ u : List Cohort, u.map List.length
      = (u.map (fun c => c.map Individual.ode_size)).map List.length := by
    intro u
    rw [List.map_map]
    simp [Function.comp]
  rw [key s, key t, h]

/-- Cohort lists with the same size profile have the same per-species total
ODE sizes. -/
theorem map_cohortSize_of_map_shape {s t : List Cohort}
    (h : s.map (fun c => c.map Individual.ode_size)
       = t.map (fun c => c.map Individual.ode_size)) :
    s.map cohortSize = t.map cohortSize := by
  have key : ∀ u : List Cohort, u.map cohortSize
      = (u.map (fun c => c.map Individual.ode_size)).map List.sum := by
    intro u
    rw [List.map_map]
    rfl
  rw [key s, key t, h]

/-- `Patch.ode_values_set` keeps the patch's age, per-species counts and
total ODE size, whatever the cursor. -/
theorem patch_values_set_frame (p : Patch) (cur : List ℚ) :
    (p.ode_values_set cur).1.age = p.age ∧
    (p.ode_values_set cur).1.r_n_individuals = p.r_n_individuals ∧
    (p.ode_values_set cur).1.ode_size = p.ode_size := by
  have h := speciesValuesSet_shape p.species cur
  refine ⟨rfl, ?_, ?_⟩
  · exact map_length_of_map_shape h
  · simp only [Patch.ode_size, Patch.ode_values_set]
    rw [map_cohortSize_of_map_shape h]

/-- `patchesValuesSet` keeps each patch's count vector and ODE size,
whatever the cursor. -/
theorem patchesValuesSet_frame (ps : List Patch) (cur : List ℚ) :
    (patchesValuesSet ps cur).1.map Patch.r_n_individuals
      = ps.map Patch.r_n_individuals ∧
    (patchesValuesSet ps cur).1.map Patch.ode_size = ps.map Patch.ode_size := by
  induction ps generalizing cur with
  | nil => simp [patchesValuesSet]
  | cons p t ih =>
    have hp := patch_values_set_frame p cur
    have ht := ih (p.ode_values_set cur).2
    simp [patchesValuesSet, hp.2.1, hp.2.2, ht.1, ht.2]

/-- The `ode_size` accumulation loop equals the initial value plus the sum
of the patch sizes. -/
theorem ode_size_foldl (ps : List Patch) (a : ℕ) :
    ps.foldl (fun acc p => acc + p.ode_size) a = a + (ps.map Patch.ode_size).sum := by
  induction ps generalizing a with
  | nil => simp
  | cons p t ih => simp [ih, Nat.add_assoc]

/-- Claim C1 (code_bug evidence): seed conservation fails.  With one patch
and two species, `add_seeds([5, 7])` hands the patch the allocation vector
`[5]` only — the inner loop runs `size()` = 1 iteration and the per-patch
vector has length `size()` = 1 — so the per-species allocated totals are
`[5, 0]`, not the input `[5, 7]`: species 1's seeds are lost. -/
theorem add_seeds_conservation_cex :
    (onePatchTwoSpecies.add_seeds [5, 7] genOnes).2.1 = [[5]] ∧
    allocTotals 2 (onePatchTwoSpecies.add_seeds [5, 7] genOnes).2.1 = [5, 0] ∧
    allocTotals 2 (onePatchTwoSpecies.add_seeds [5, 7] genOnes).2.1 ≠ [5, 7] := by
  refine ⟨?_, ?_, ?_⟩ <;> decide

/-- Claim C2: for every metacommunity state, `ode_values_set` applied to the
state vector produced by `ode_values` leaves the state unchanged, and a
subsequent `ode_values` reproduces the same state vector. -/
theorem ode_values_roundtrip (m : Metacommunity) :
    (m.ode_values_set m.ode_values).1 = m ∧
    (m.ode_values_set m.ode_values).1.ode_values = m.ode_values := by
  have h : m.ode_values_set (m.ode_values ++ []) = (m, []) :=
    meta_values_set_self m []
  rw [List.append_nil] at h
  exact ⟨by rw [h], by rw [h]⟩

/-- Claim C3 (code_bug evidence): `add_seeds` does not implement the spec's
sequential binomial scheme.  The source decrements the `size_t` counter `j`
once per species inside the inner loop (`i++, j--`), so with two patches
and two species `j` reaches 0 after the first patch and the second patch
draws with `p = 1.0/0.0` instead of the scheme's `p = 1`: on the stream of
ones the source allocates `[[1, 1], [1, 1]]` where the spec's scheme
allocates the whole remainder `[[1, 1], [3, 3]]` to the last patch. -/
theorem add_seeds_scheme_mismatch_cex :
    (twoPatchTwoSpecies.add_seeds [4, 4] genOnes).2.1 = [[1, 1], [1, 1]] ∧
    (twoPatchTwoSpecies.add_seeds_specScheme [4, 4] genOnes).2.1
      = [[1, 1], [3, 3]] ∧
    (twoPatchTwoSpecies.add_seeds [4, 4] genOnes).2.1
      ≠ (twoPatchTwoSpecies.add_seeds_specScheme [4, 4] genOnes).2.1 := by
  refine ⟨?_, ?_, ?_⟩ <;> decide

/-- Claim C4 (code_bug evidence): `births()` does not return a vector of
length `n_species`.  Its accumulator is built as
`std::vector<int> n(size(), 0)` with `size()` the number of patches, so with
one patch and two species — the single patch holding one individual of each
species, each producing one seed — `births()` is `[1]` of length 1, not a
per-species vector of length 2: species 1's seed count is dropped. -/
theorem births_length_cex :
    birthsDemoM.births fecUnit = [1] ∧
    birthsDemoM.n_species = 2 ∧
    birthsDemoM.patches.map (Patch.births fecUnit) = [[1, 1]] ∧
    (birthsDemoM.births fecUnit).length ≠ birthsDemoM.n_species := by
  refine ⟨?_, ?_, ?_, ?_⟩ <;> decide

/-- Claim C5 (code_bug evidence): with a single patch, not every seed is
allocated to it.  With one patch and two species, `add_seeds([3, 4])` gives
the patch only species 0's seeds (allocation `[3]`, post-call counts
`[[3, 0]]`): the claimed deterministic full allocation `[3, 4]` fails
because the species loop runs `size()` = 1 iteration. -/
theorem add_seeds_single_patch_cex :
    (onePatchTwoSpecies.add_seeds [3, 4] genOnes).1.r_n_individuals = [[3, 0]] ∧
    (onePatchTwoSpecies.add_seeds [3, 4] genOnes).2.1 = [[3]] ∧
    allocTotals 2 (onePatchTwoSpecies.add_seeds [3, 4] genOnes).2.1 ≠ [3, 4] := by
  refine ⟨?_, ?_, ?_⟩ <;> decide

/-- Claim C6 (counterexample): `step_stochastic()` does not cause a solver
`reset()`.  On a concrete state whose solver holds a stale step-size history
entry and whose population size the stochastic update changes (the single
individual dies: counts go from `[[1]]` to `[[0]]`), the solver still holds
the same history entry afterwards — in particular it is not the reset
(cleared) solver state the claim requires before the next deterministic
step. -/
theorem step_stochastic_no_reset_cex :
    staleSolverM.r_n_individuals = [[1]] ∧
    (staleSolverM.step_stochastic fecZero mortAlways genOnes).1.r_n_individuals
      = [[0]] ∧
    (staleSolverM.step_stochastic fecZero mortAlways genOnes).1.solver.history
      = some 1 ∧
    (staleSolverM.step_stochastic fecZero mortAlways genOnes).1.solver
      ≠ staleSolverM.solver.reset := by
  refine ⟨?_, ?_, ?_, ?_⟩ <;> decide

/-- Claim C6 (amended): `reset()` is called by `r_clear()` — which clears
the step-size adaptation history — while `step_stochastic()` never touches
the solver: its state, including the adaptation history, is identical before
and after the stochastic update, for every state, rule and generator. -/
theorem reset_only_on_clear (fec : Individual → ℕ)
    (mort : Individual → ℤ → Bool) (m : Metacommunity) (g : Gen) :
    (m.step_stochastic fec mort g).1.solver = m.solver ∧
    m.r_clear.solver = m.solver.reset := by
  exact ⟨rfl, rfl⟩

/-- Claim C7: the stochastic update is reproducible — from identical
starting states and identical generator states, two runs of
`step_stochastic` produce identical per-patch per-species individual counts
and identical final generator states. -/
theorem step_stochastic_reproducible (fec : Individual → ℕ)
    (mort : Individual → ℤ → Bool) (ma mb : Metacommunity) (ga gb : Gen)
    (hm : ma = mb) (hg : ga = gb) :
    (ma.step_stochastic fec mort ga).1.r_n_individuals
      = (mb.step_stochastic fec mort gb).1.r_n_individuals ∧
    (ma.step_stochastic fec mort ga).2 = (mb.step_stochastic fec mort gb).2 := by
  subst hm
  subst hg
  exact ⟨rfl, rfl⟩

/-- Witness for claim C7 at a concrete state, rules and generator. -/
theorem step_stochastic_reproducible_witness :
    (staleSolverM.step_stochastic fecZero mortAlways genOnes).1.r_n_individuals
      = (staleSolverM.step_stochastic fecZero mortAlways genOnes).1.r_n_individuals ∧
    (staleSolverM.step_stochastic fecZero mortAlways genOnes).2
      = (staleSolverM.step_stochastic fecZero mortAlways genOnes).2 :=
  step_stochastic_reproducible fecZero mortAlways staleSolverM staleSolverM
    genOnes genOnes rfl rfl

/-- Claim C8: `ode_size()` equals the sum of the patches' `ode_size()` for
every metacommunity state, and in particular after construction, a
deterministic step, a stochastic step, seed addition, seedling injection
(successful or rejected) and `r_clear`. -/
theorem ode_size_sum_invariant (m : Metacommunity) (p : Parameters)
    (σ : SolverStep) (fec : Individual → ℕ) (mort : Individual → ℤ → Bool)
    (s : List ℤ) (g : Gen) (mat : IntMatrix) :
    m.ode_size = (m.patches.map Patch.ode_size).sum ∧
    (Metacommunity.init p).ode_size
      = ((Metacommunity.init p).patches.map Patch.ode_size).sum ∧
    (m.step_deterministic σ).ode_size
      = ((m.step_deterministic σ).patches.map Patch.ode_size).sum ∧
    (m.step_stochastic fec mort g).1.ode_size
      = ((m.step_stochastic fec mort g).1.patches.map Patch.ode_size).sum ∧
    (m.add_seeds s g).1.ode_size
      = ((m.add_seeds s g).1.patches.map Patch.ode_size).sum ∧
    (exceptD (m.r_add_seedlings mat) m).ode_size
      = ((exceptD (m.r_add_seedlings mat) m).patches.map Patch.ode_size).sum ∧
    m.r_clear.ode_size = (m.r_clear.patches.map Patch.ode_size).sum := by
  have key : ∀ x : Metacommunity,
      x.ode_size = (x.patches.map Patch.ode_size).sum := by
    intro x
    simp [Metacommunity.ode_size, ode_size_foldl]
  exact ⟨key _, key _, key _, key _, key _, key _, key _⟩

/-- Claim C9: a seedling matrix whose column count differs from the number
of patches or whose row count differs from the number of species makes
`r_add_seedlings` fail at the boundary: an error is surfaced to the caller,
no updated state is produced, and the receiver is left unchanged. -/
theorem r_add_seedlings_shape_guard (m : Metacommunity) (s : IntMatrix)
    (h : s.ncol ≠ m.size ∨ s.nrow ≠ m.n_species) :
    (∃ e, m.r_add_seedlings s = Except.error e) ∧
    exceptD (m.r_add_seedlings s) m = m := by
  have herr : ∃ e, m.r_add_seedlings s = Except.error e := by
    unfold Metacommunity.r_add_seedlings
    by_cases h1 : s.ncol = m.size
    · have h2 : s.nrow ≠ m.n_species := by tauto
      exact ⟨"incorrect length input", by simp [h1, h2]⟩
    · exact ⟨"incorrect length input", by simp [h1]⟩
  obtain ⟨e, he⟩ := herr
  exact ⟨⟨e, he⟩, by simp [exceptD, he]⟩

/-- Witness for claim C9: a 2×2 matrix against a one-patch two-species
metacommunity (column count 2 ≠ 1 patch). -/
theorem r_add_seedlings_shape_guard_witness :
    (∃ e, onePatchTwoSpecies.r_add_seedlings ⟨2, 2, [[1, 1], [1, 1]]⟩
        = Except.error e) ∧
    exceptD (onePatchTwoSpecies.r_add_seedlings ⟨2, 2, [[1, 1], [1, 1]]⟩)
        onePatchTwoSpecies = onePatchTwoSpecies :=
  r_add_seedlings_shape_guard onePatchTwoSpecies ⟨2, 2, [[1, 1], [1, 1]]⟩
    (by decide)

/-- Claim C10: a deterministic step changes only the continuous state of
existing individuals and the age — the number of patches, the per-patch
per-species individual counts (hence also `ode_size()`) and the parameters
are identical before and after `step_deterministic`, for every solver
step. -/
theorem step_deterministic_frame (σ : SolverStep) (m : Metacommunity) :
    (m.step_deterministic σ).size = m.size ∧
    (m.step_deterministic σ).r_n_individuals = m.r_n_individuals ∧
    (m.step_deterministic σ).ode_size = m.ode_size ∧
    (m.step_deterministic σ).params = m.params := by
  have hf := patchesValuesSet_frame m.patches
    (σ.next m.solver m.ode_values m.age).2.1
  have hn : (m.step_deterministic σ).r_n_individuals = m.r_n_individuals := by
    simp only [Metacommunity.step_deterministic, Metacommunity.ode_values_set,
      Metacommunity.r_n_individuals]
    exact hf.1
  refine ⟨?_, hn, ?_, rfl⟩
  · have := congrArg List.length hn
    simpa [Metacommunity.r_n_individuals, Metacommunity.size] using this
  · simp only [Metacommunity.ode_size, Metacommunity.step_deterministic,
      Metacommunity.ode_values_set]
    rw [ode_size_foldl, ode_size_foldl, hf.2]

end PlantModel
